import Mathlib

/-!
Verification development for the `isfj` online-judge engine.

The Go sources are shallowly embedded: pure functions become Lean
functions, machine integers become `Nat`/`Int` with explicit `% 2^w`
where conversions occur, stateful code becomes explicit state passing,
and interactions with the operating system (pipes, process spawn, wait
events, the embedded script engine) are abstracted as explicit
environment values enumerating the outcomes the Go code branches on.
-/

/-! ## models.go: Status and JudgeMode -/

/-- models.go: `type Status uint16`.  Represented as `Nat`; conversions
from wider values reduce modulo 2^16 at the conversion sites. -/
abbrev Status := Nat

def ST_WAITING : Status := 0
def ST_RUNNING : Status := 1
def ST_CANCELLED : Status := 2
def ST_ACCEPTED : Status := 3
def ST_COMPILATION_ERROR : Status := 4
def ST_COMPILATION_SUCCESS : Status := 5
def ST_WRONG_ANSWER : Status := 6
def ST_RUNTIME_ERROR : Status := 7
def ST_HOSTILE_CODE : Status := 8
def ST_TIME_LIMIT_EXCEEDED : Status := 9
def ST_MEMORY_LIMIT_EXCEEDED : Status := 10
def ST_SYSTEM_ERROR : Status := 11
def ST_SKIPPED : Status := 12

def ST_MAX : Status := ST_SKIPPED

/-- models.go `Status.Ident`: the Go switch covers exactly the thirteen
declared constants and panics on every other value; the panic is
modelled as `none`. -/
def StatusIdent (s : Status) : Option String :=
  if s = ST_WAITING then some "ST_WAITING"
  else if s = ST_RUNNING then some "ST_RUNNING"
  else if s = ST_CANCELLED then some "ST_CANCELLED"
  else if s = ST_ACCEPTED then some "ST_ACCEPTED"
  else if s = ST_COMPILATION_ERROR then some "ST_COMPILATION_ERROR"
  else if s = ST_COMPILATION_SUCCESS then some "ST_COMPILATION_SUCCESS"
  else if s = ST_WRONG_ANSWER then some "ST_WRONG_ANSWER"
  else if s = ST_RUNTIME_ERROR then some "ST_RUNTIME_ERROR"
  else if s = ST_HOSTILE_CODE then some "ST_HOSTILE_CODE"
  else if s = ST_TIME_LIMIT_EXCEEDED then some "ST_TIME_LIMIT_EXCEEDED"
  else if s = ST_MEMORY_LIMIT_EXCEEDED then some "ST_MEMORY_LIMIT_EXCEEDED"
  else if s = ST_SYSTEM_ERROR then some "ST_SYSTEM_ERROR"
  else if s = ST_SKIPPED then some "ST_SKIPPED"
  else none

/-- models.go `Status.String`: same switch shape as `Ident`, panic
modelled as `none`. -/
def StatusString (s : Status) : Option String :=
  if s = ST_WAITING then some "Waiting"
  else if s = ST_RUNNING then some "Running"
  else if s = ST_CANCELLED then some "Cancelled"
  else if s = ST_ACCEPTED then some "Accepted"
  else if s = ST_COMPILATION_ERROR then some "Compilation Error"
  else if s = ST_COMPILATION_SUCCESS then some "Compilation Success"
  else if s = ST_WRONG_ANSWER then some "Wrong Answer"
  else if s = ST_RUNTIME_ERROR then some "Runtime Error"
  else if s = ST_HOSTILE_CODE then some "Hostile Code"
  else if s = ST_TIME_LIMIT_EXCEEDED then some "Time Limit Exceeded"
  else if s = ST_MEMORY_LIMIT_EXCEEDED then some "Memory Limit Exceeded"
  else if s = ST_SYSTEM_ERROR then some "System Error"
  else if s = ST_SKIPPED then some "Skipped"
  else none

/-- models.go: `type JudgeMode uint16`, as `Nat` with conversions
reducing modulo 2^16 at the conversion sites. -/
abbrev JudgeMode := Nat

def J_LAX : JudgeMode := 0
def J_STRICT : JudgeMode := 1
def J_SPECIAL : JudgeMode := 2

/-- models.go `JudgeMode.ModeBits`: `m & 0x00ff`. -/
def JudgeMode.ModeBits (m : JudgeMode) : JudgeMode := m &&& 0x00ff

/-- models.go `JudgeMode.JudgerId`: `int((m & 0xff00) >> 8)`. -/
def JudgeMode.JudgerId (m : JudgeMode) : Nat := (m &&& 0xff00) >>> 8

/-- models.go `MakeSpecialJudgeMode`: `JudgeMode(judger << 8) + J_SPECIAL`.
The Go conversion `JudgeMode(...)` truncates `int` to `uint16` and the
addition is `uint16` addition, hence the two `% 65536`. -/
def MakeSpecialJudgeMode (judger : Nat) : JudgeMode :=
  ((judger <<< 8) % 65536 + J_SPECIAL) % 65536

/-! ## runner.go / models.go: Limits, Usages and supporting records -/

/-- runner.go `Limits` (`Time`, `StackMemory`, `HeapMemory`, all `uint64`). -/
structure Limits where
  time : Nat
  stackMemory : Nat
  heapMemory : Nat
deriving DecidableEq

/-- runner.go `Limits.IsAllUnlimited`. -/
def Limits.IsAllUnlimited (u : Limits) : Bool :=
  u.time == 0 && u.stackMemory == 0 && u.heapMemory == 0

/-- runner.go `Usages` (`Time`, `Memory`, both `uint64`). -/
structure Usages where
  time : Nat
  memory : Nat
deriving DecidableEq

/-- models.go `Case`.  Go strings are modelled as `List Char`. -/
structure Case where
  stdin : List Char
  stdout : List Char
  args : List (List Char)
  limits : Limits
  points : Int
deriving DecidableEq

/-- models.go `CaseResult`. -/
structure CaseResult where
  status : Status
  usages : Usages
  points : Int
  extra : List Char
deriving DecidableEq

/-- models.go `Job`.  `updated` models the `time.Time` stamp as a
logical clock advanced by every update. -/
structure Job where
  code : List Char
  lang : List Char
  needle : List Char
  status : Status
  mode : JudgeMode
  cases : List Case
  groups : Option (List (List Int))
  results : List CaseResult
  updated : Nat
deriving DecidableEq

/-- models.go `JobInit`. -/
structure JobInit where
  code : List Char
  lang : List Char
  needle : List Char
  mode : JudgeMode
  cases : List Case
  groups : Option (List (List Int))

/-- The zero value of `CaseResult` produced by Go's
`make([]CaseResult, n)`. -/
def zeroCaseResult : CaseResult :=
  { status := ST_WAITING, usages := { time := 0, memory := 0 }, points := 0, extra := [] }

/-- models.go `NewJob`. -/
def NewJob (init : JobInit) : Job :=
  { code := init.code
    lang := init.lang
    needle := init.needle
    status := ST_WAITING
    mode := init.mode
    cases := init.cases
    groups := init.groups
    results := List.replicate (init.cases.length + 1) zeroCaseResult
    updated := 0 }

/-- models.go `Job.Finished`: neither waiting nor running, i.e. the job
status is terminal. -/
def JobFinished (j : Job) : Bool :=
  decide (j.status ≠ ST_WAITING) && decide (j.status ≠ ST_RUNNING)

/-! ## judger.go: lax and strict judging -/

/-- The predicate used by Go's `strings.TrimSpace` (Unicode
`White_Space`, which `unicode.IsSpace` reports). -/
def goIsSpace (c : Char) : Bool :=
  let n := c.toNat
  decide (9 ≤ n ∧ n ≤ 13) || decide (n = 32) || decide (n = 0x85) ||
  decide (n = 0xA0) || decide (n = 0x1680) ||
  decide (0x2000 ≤ n ∧ n ≤ 0x200A) || decide (n = 0x2028) ||
  decide (n = 0x2029) || decide (n = 0x202F) || decide (n = 0x205F) ||
  decide (n = 0x3000)

/-- Go `strings.Split(s, "\n")`: always returns at least one field. -/
def splitOnNl : List Char → List (List Char)
  | [] => [[]]
  | c :: rest =>
    if c = '\n' then [] :: splitOnNl rest
    else
      match splitOnNl rest with
      | l :: ls => (c :: l) :: ls
      | [] => [[c]]

/-- Leading-whitespace trim, one half of `strings.TrimSpace`. -/
def ltrim (l : List Char) : List Char := l.dropWhile goIsSpace

/-- Trailing-whitespace trim, the other half of `strings.TrimSpace`. -/
def rtrim (l : List Char) : List Char := (l.reverse.dropWhile goIsSpace).reverse

/-- Go `strings.TrimSpace`. -/
def trimSpace (l : List Char) : List Char := rtrim (ltrim l)

/-- judger.go `splitLinesAndTrim`: split on `'\n'`, trim every line,
delete the lines that became empty. -/
def splitLinesAndTrim (s : List Char) : List (List Char) :=
  ((splitOnNl s).map trimSpace).filter (fun l => !l.isEmpty)

/-- judger.go `LaxJudge`: equal number of surviving lines and pairwise
equal lines. -/
def LaxJudge (got expected : List Char) : Bool :=
  let gotLines := splitLinesAndTrim got
  let expectedLines := splitLinesAndTrim expected
  if gotLines.length ≠ expectedLines.length then false
  else (gotLines.zip expectedLines).all fun p => p.1 == p.2

/-- judger.go `StrictJudge`: byte equality of the two strings. -/
def StrictJudge (got expected : List Char) : Bool := got == expected

/-- judger.go `LuaJudger.Judge`: the interaction with the embedded Lua
engine is abstracted as the outcome the Go code branches on — script
error, missing or non-function `judge` global, protected-call error, or
a numeric return value.  The numeric value is converted by
`Status(code)` with no range check (`uint16` truncation). -/
inductive LuaRunOutcome where
  | scriptError
  | judgeNotFunction
  | callError
  | returns (n : Nat)

/-- judger.go `LuaJudger.Judge`, as a function of the script outcome. -/
def LuaJudgerJudge : LuaRunOutcome → Status
  | .scriptError => ST_SYSTEM_ERROR
  | .judgeNotFunction => ST_SYSTEM_ERROR
  | .callError => ST_SYSTEM_ERROR
  | .returns n => n % 65536

/-! ## runner.go: the sandbox supervisor -/

/-- runner.go `RunnerInput`. -/
structure RunnerInput where
  executable : List Char
  arguments : List (List Char)
  needleLib : List Char
  stdin : List Char
  limits : Limits

/-- runner.go `RunnerOutput`.  `deduction` and `exitInfo` are Go `int`. -/
structure RunnerOutput where
  status : Status
  stdout : List Char
  usages : Usages
  deduction : Int
  exitInfo : Int
deriving DecidableEq

/-- One observation of the supervision loop, abstracting a `Wait4`
result together with the `/proc` sample the loop takes at that moment:
`poll` is a non-blocking wait that reaped nothing, the rest decode the
wait status (seccomp trace-stop, exit trace-stop, some other stop,
normal exit, killed by signal).  `time` is elapsed microseconds since
spawn; `mem` is `some (stack, heap)` when reading the status
pseudo-file succeeds and `none` when it fails. -/
inductive RunEvent where
  | poll (time : Nat) (mem : Option (Nat × Nat))
  | seccomp (time : Nat) (mem : Option (Nat × Nat)) (retData : Nat) (nr : Nat)
  | exitStop (time : Nat) (mem : Option (Nat × Nat))
  | otherStop (time : Nat) (mem : Option (Nat × Nat))
  | exited (time : Nat) (mem : Option (Nat × Nat)) (code : Nat)
  | signaled (time : Nat) (mem : Option (Nat × Nat)) (sig : Nat)

/-- The host-side environment of one `Run` call: whether each pipe
creation and the spawn succeed, the stream of supervision events, the
bytes sitting in the stdout pipe, and whether the final drain of the
stdout pipe succeeds. -/
structure RunEnv where
  stdinPipeOk : Bool
  stdoutPipeOk : Bool
  spawnOk : Bool
  events : List RunEvent
  stdoutData : List Char
  readOk : Bool

/-- Mutable state of the supervision loop: last harvested usages, the
`skipUsages` latch set at the exit trace-stop, and the running
`deduction` accumulator (`uint32` in Go, hence sums reduce mod 2^32). -/
structure RunState where
  usages : Usages
  skipUsages : Bool
  deduction : Nat

def eventSample : RunEvent → Nat × Option (Nat × Nat)
  | .poll t m => (t, m)
  | .seccomp t m _ _ => (t, m)
  | .exitStop t m => (t, m)
  | .otherStop t m => (t, m)
  | .exited t m _ => (t, m)
  | .signaled t m _ => (t, m)

/-- runner.go `updateUsages` closure: on a successful memory sample the
usages snapshot is replaced; on failure it is left intact and the
returned per-dimension values are zero. -/
def stUpdateUsages (st : RunState) (time : Nat) (mem : Option (Nat × Nat)) :
    RunState × Nat × Nat :=
  match mem with
  | some (stack, heap) =>
    ({ st with usages := { time := time, memory := stack + heap } }, stack, heap)
  | none => (st, 0, 0)

/-- The body of the limited-mode polling iteration (runner.go lines
205-233): sample, then return the limit verdict if a limit is exceeded,
else carry the updated state. -/
def limitCheck (limits : Limits) (st : RunState) (time : Nat)
    (mem : Option (Nat × Nat)) : Sum RunnerOutput RunState :=
  if limits.time > 0 ∧ (stUpdateUsages st time mem).1.usages.time > limits.time then
    .inl { status := ST_TIME_LIMIT_EXCEEDED, stdout := [],
           usages := (stUpdateUsages st time mem).1.usages,
           deduction := 0, exitInfo := 0 }
  else if (limits.stackMemory > 0 ∧ (stUpdateUsages st time mem).2.1 > limits.stackMemory) ∨
      (limits.heapMemory > 0 ∧ (stUpdateUsages st time mem).2.2 > limits.heapMemory) then
    .inl { status := ST_MEMORY_LIMIT_EXCEEDED, stdout := [],
           usages := (stUpdateUsages st time mem).1.usages,
           deduction := 0, exitInfo := 0 }
  else .inr (stUpdateUsages st time mem).1

/-- How an event passes the wait stage: with all limits zero the loop
blocks without sampling; with `skipUsages` latched the sample and the
limit checks are skipped; otherwise the polling body runs and may
return a limit verdict. -/
def pollGate (limits : Limits) (st : RunState) (e : RunEvent) :
    Sum RunnerOutput RunState :=
  if limits.IsAllUnlimited then .inr st
  else if st.skipUsages then .inr st
  else limitCheck limits st (eventSample e).1 (eventSample e).2

/-- The supervision loop of runner.go `Run` (lines 200-283), consuming
the event stream.  `none` models a loop that never reaches a
terminating event (the Go loop would still be waiting). -/
def runLoop (limits : Limits) (stdoutData : List Char) (readOk : Bool) :
    RunState → List RunEvent → Option RunnerOutput
  | _, [] => none
  | st, e :: rest =>
    match pollGate limits st e with
    | .inl out => some out
    | .inr st =>
      match e with
      | .poll _ _ => runLoop limits stdoutData readOk st rest
      | .seccomp t m retData nr =>
        let st := (stUpdateUsages st t m).1
        if retData = 0 then
          some { status := ST_HOSTILE_CODE, stdout := [], usages := st.usages,
                 deduction := 0, exitInfo := Int.ofNat nr }
        else
          runLoop limits stdoutData readOk
            { st with deduction := (st.deduction + retData) % 4294967296 } rest
      | .exitStop t m =>
        let st := (stUpdateUsages st t m).1
        runLoop limits stdoutData readOk { st with skipUsages := true } rest
      | .otherStop _ _ => runLoop limits stdoutData readOk st rest
      | .exited _ _ code =>
        if readOk then
          some { status := ST_ACCEPTED, stdout := stdoutData, usages := st.usages,
                 deduction := Int.ofNat st.deduction, exitInfo := Int.ofNat code }
        else
          some { status := ST_SYSTEM_ERROR, stdout := [],
                 usages := { time := 0, memory := 0 }, deduction := 0, exitInfo := 0 }
      | .signaled _ _ sig =>
        some { status := ST_RUNTIME_ERROR, stdout := [], usages := st.usages,
               deduction := 0, exitInfo := Int.ofNat sig }

/-- runner.go `Run`: the three setup steps (two pipe creations and the
spawn) each return `system_error` with empty output and zero deduction
on failure; afterwards the supervision loop runs with fresh state. -/
def Run (input : RunnerInput) (env : RunEnv) : Option RunnerOutput :=
  if env.stdinPipeOk = false then
    some { status := ST_SYSTEM_ERROR, stdout := [],
           usages := { time := 0, memory := 0 }, deduction := 0, exitInfo := 0 }
  else if env.stdoutPipeOk = false then
    some { status := ST_SYSTEM_ERROR, stdout := [],
           usages := { time := 0, memory := 0 }, deduction := 0, exitInfo := 0 }
  else if env.spawnOk = false then
    some { status := ST_SYSTEM_ERROR, stdout := [],
           usages := { time := 0, memory := 0 }, deduction := 0, exitInfo := 0 }
  else
    runLoop input.limits env.stdoutData env.readOk
      { usages := { time := 0, memory := 0 }, skipUsages := false, deduction := 0 }
      env.events

/-! ## engine.go: Task, worker pipeline, scheduling ledger -/

/-- engine.go `Task`: the job plus the stream of values the listener
received, one per `Task.update` call (each is also what `SnapJob`
would return immediately after that update). -/
structure TaskState where
  job : Job
  snaps : List Job
deriving DecidableEq

/-- engine.go `Task.update`: apply the mutation under the lock, refresh
the `Updated` stamp, hand the new job value to the listener. -/
def taskUpdate (t : TaskState) (f : Job → Job) : TaskState :=
  let j := f t.job
  let j := { j with updated := t.job.updated + 1 }
  { job := j, snaps := t.snaps ++ [j] }

/-- engine.go `Task.cancel`: mark the job and every result cancelled. -/
def taskCancel (t : TaskState) : TaskState :=
  taskUpdate t fun j =>
    { j with status := ST_CANCELLED,
             results := j.results.map fun r => { r with status := ST_CANCELLED } }

/-- In-place update of one slice element, as Go's `xs[i].F = v`.
Out-of-range indices leave the list unchanged; the bounds of every
index the worker actually uses are modelled by `packedCaseAccess`
below. -/
def listModify : List α → Nat → (α → α) → List α
  | [], _, _ => []
  | a :: as, 0, f => f a :: as
  | a :: as, n + 1, f => a :: listModify as n f

/-- Field update on `job.Results[k]`. -/
def setResult (j : Job) (k : Nat) (f : CaseResult → CaseResult) : Job :=
  { j with results := listModify j.results k f }

/-- engine.go `runOne` lines 126-151: outcome of dispatching to the
mode's judger once the runner accepted.  The special-judger interaction
(`Clone` error or the clone's verdict) is abstracted as an oracle.
When the mode bits match no case of the Go switch, `status` keeps its
zero value `ST_WAITING`. -/
inductive SpecialOutcome where
  | cloneErr
  | verdict (s : Status)

def dfltCase : Case :=
  { stdin := [], stdout := [], args := [],
    limits := { time := 0, stackMemory := 0, heapMemory := 0 }, points := 0 }

/-- The judge-dispatch switch of engine.go `runOne`. -/
def judgeDispatch (mode : JudgeMode) (cases : List Case) (i : Nat)
    (out : RunnerOutput) (sp : SpecialOutcome) : Status :=
  let expected := (cases.getD i dfltCase).stdout
  if mode.ModeBits = J_LAX then
    if LaxJudge out.stdout expected then ST_ACCEPTED else ST_WRONG_ANSWER
  else if mode.ModeBits = J_STRICT then
    if StrictJudge out.stdout expected then ST_ACCEPTED else ST_WRONG_ANSWER
  else if mode.ModeBits = J_SPECIAL then
    match sp with
    | .cloneErr => ST_SYSTEM_ERROR
    | .verdict s => s
  else ST_WAITING

/-- Two's-complement wrap of Go's 64-bit `int` arithmetic: the value a
Go `int` expression takes when its mathematical value overflows. -/
def wrap64 (x : Int) : Int :=
  (x + 9223372036854775808) % 18446744073709551616 - 9223372036854775808

def signalExtra (n : Int) : List Char :=
  ("Process terminated by signal " ++ toString n).data

def syscallExtra (n : Int) : List Char :=
  ("Process killed due to malicious syscall " ++ toString n).data

/-- engine.go `worker.runOne` for case index `i` (0-based), with the
`Run` call's result and the special-judger interaction supplied as
oracles: mark the slot running; copy the runner status (when not
accepted), usages and diagnostic text; when the runner accepted, judge
and record the verdict, computing `max(points − deduction, 0)` on
acceptance — the subtraction is Go `int` (64-bit) arithmetic, so it
wraps (`wrap64`) where the mathematical difference overflows. -/
def runOne (mode : JudgeMode) (cases : List Case) (out : RunnerOutput)
    (sp : SpecialOutcome) (i : Nat) (t : TaskState) : TaskState :=
  let t := taskUpdate t fun j =>
    setResult j (i + 1) fun r => { r with status := ST_RUNNING }
  let t := taskUpdate t fun j =>
    let j := if out.status ≠ ST_ACCEPTED then
        setResult j (i + 1) fun r => { r with status := out.status }
      else j
    let j := setResult j (i + 1) fun r => { r with usages := out.usages }
    if out.status = ST_RUNTIME_ERROR then
      setResult j (i + 1) fun r => { r with extra := signalExtra out.exitInfo }
    else if out.status = ST_HOSTILE_CODE then
      setResult j (i + 1) fun r => { r with extra := syscallExtra out.exitInfo }
    else j
  if out.status = ST_ACCEPTED then
    let status := judgeDispatch mode cases i out sp
    taskUpdate t fun j =>
      let j := setResult j (i + 1) fun r => { r with status := status }
      if status = ST_ACCEPTED then
        setResult j (i + 1) fun r =>
          { r with points := max (wrap64 ((cases.getD i dfltCase).points - out.deduction)) 0 }
      else j
  else t

/-- engine.go `worker.runUnpacked`: one concurrent unit per case, each
as `runOne i`.  Every unit writes only slot `i + 1`, so the joined
final state equals this sequential linearisation. -/
def runUnpacked (mode : JudgeMode) (cases : List Case)
    (outs : Nat → RunnerOutput × SpecialOutcome) (t : TaskState) : TaskState :=
  (List.range cases.length).foldl
    (fun t i => runOne mode cases (outs i).1 (outs i).2 i t) t

/-- engine.go `worker.runPacked`: one concurrent unit per group, cases
inside a group sequential as `runOne (g − 1)`.  Group entries are Go
`int`; `Int.toNat` stands for the slice-index conversion, whose bounds
(a negative or too-large `g − 1` panics in Go) are modelled by
`packedCaseAccess` / `packedResultAccess` below. -/
def runPacked (mode : JudgeMode) (cases : List Case)
    (outs : Nat → RunnerOutput × SpecialOutcome) (groups : List (List Int))
    (t : TaskState) : TaskState :=
  groups.foldl
    (fun t group =>
      group.foldl
        (fun t g =>
          let i := (g - 1).toNat
          runOne mode cases (outs i).1 (outs i).2 i t)
        t)
    t

/-- The final-aggregation loop of engine.go `worker.run` (lines
213-225) over `Results[1:]`: the first non-accepted status wins, and
`accepted` when the loop never broke. -/
def aggregateStatus : List CaseResult → Status
  | [] => ST_ACCEPTED
  | r :: rs => if r.status = ST_ACCEPTED then aggregateStatus rs else r.status

/-- engine.go `worker.run`: mark running, store the compile status in
`Results[0]`, and on a non-success compile outcome record the
diagnostic, set the job status and run the skip loop (which in the
source iterates from index 0, over every result slot); otherwise
dispatch packed or unpacked and aggregate.  The compiler invocation is
an oracle pair (status, output text). -/
def workerRun (compileSt : Status) (compileOut : List Char)
    (outs : Nat → RunnerOutput × SpecialOutcome) (t : TaskState) : TaskState :=
  let t := taskUpdate t fun j => { j with status := ST_RUNNING }
  let t := taskUpdate t fun j =>
    setResult j 0 fun r => { r with status := compileSt }
  if compileSt ≠ ST_COMPILATION_SUCCESS then
    taskUpdate t fun j =>
      let j := setResult j 0 fun r => { r with extra := compileOut }
      let j := { j with status := compileSt }
      { j with results := j.results.map fun r => { r with status := ST_SKIPPED } }
  else
    let t :=
      match t.job.groups with
      | some gs => runPacked t.job.mode t.job.cases outs gs t
      | none => runUnpacked t.job.mode t.job.cases outs t
    taskUpdate t fun j => { j with status := aggregateStatus j.results.tail }

/-! ### The worker-claim / cancellation interleaving (engine.go
`worker.poll`, `Engine.removeTask`, `Engine.CancelTask`)

Each constructor is one critical section of the source: the worker's
`ContainsTask` read (one lock acquisition), the worker's `removeTask`
(a second, separate acquisition), the worker's `run`, the canceller's
`removeTask` inside `CancelTask`, and the `task.cancel` it performs
when the id was still present. -/

inductive ThreadStep where
  | wCheck
  | wRemove
  | wRun
  | cRemove
  | cCancel

structure SysState where
  ledger : List Nat
  taskId : Nat
  wChecked : Option Bool
  wRemoved : Bool
  ran : Bool
  cancelRemoved : Option Bool
  cancelApplied : Bool
  task : TaskState
deriving DecidableEq

/-- One atomic step of the two threads racing on a freshly dequeued
task.  Guards encode the program order of each thread; steps whose
guard fails do nothing. -/
def sysStep (compileSt : Status) (compileOut : List Char)
    (outs : Nat → RunnerOutput × SpecialOutcome) (s : SysState) :
    ThreadStep → SysState
  | .wCheck =>
    if s.wChecked = none then
      { s with wChecked := some (s.ledger.contains s.taskId) }
    else s
  | .wRemove =>
    if s.wChecked = some true ∧ ¬s.wRemoved then
      { s with ledger := s.ledger.erase s.taskId, wRemoved := true }
    else s
  | .wRun =>
    if s.wChecked = some true ∧ s.wRemoved ∧ ¬s.ran then
      { s with ran := true, task := workerRun compileSt compileOut outs s.task }
    else s
  | .cRemove =>
    if s.cancelRemoved = none then
      { s with cancelRemoved := some (s.ledger.contains s.taskId),
               ledger := s.ledger.erase s.taskId }
    else s
  | .cCancel =>
    if s.cancelRemoved = some true ∧ ¬s.cancelApplied then
      { s with cancelApplied := true, task := taskCancel s.task }
    else s

def sysRun (compileSt : Status) (compileOut : List Char)
    (outs : Nat → RunnerOutput × SpecialOutcome) (s : SysState)
    (sched : List ThreadStep) : SysState :=
  sched.foldl (sysStep compileSt compileOut outs) s

/-- The state right after `Schedule`: the task id is in the engine's
ledger and neither thread has moved. -/
def schedState (id : Nat) (job : Job) : SysState :=
  { ledger := [id], taskId := id, wChecked := none, wRemoved := false,
    ran := false, cancelRemoved := none, cancelApplied := false,
    task := { job := job, snaps := [] } }

/-! ### Index accesses of `runOne` under packed dispatch -/

/-- Go slice read `xs[i]` with an `int` index: panics (`none`) outside
`[0, len)`. -/
def listGetI (l : List α) (i : Int) : Option α :=
  if i < 0 then none else l.get? i.toNat

/-- The `Cases[i]` access performed by `runOne` when `runPacked` calls
it with `i = g − 1` for a group entry `g`. -/
def packedCaseAccess (cases : List Case) (g : Int) : Option Case :=
  listGetI cases (g - 1)

/-- The `Results[i+1] = Results[g]` access performed by `runOne` for a
group entry `g`. -/
def packedResultAccess (results : List CaseResult) (g : Int) : Option CaseResult :=
  listGetI results (g - 1 + 1)

/-- All slice accesses of one packed case unit stay in bounds. -/
def packedAccessOk (cases : List Case) (results : List CaseResult) (g : Int) : Bool :=
  (packedCaseAccess cases g).isSome && (packedResultAccess results g).isSome

/-! ## Line-level vocabulary for the lax-judge laws -/

/-- Rejoin lines with `'\n'`, the inverse of `splitOnNl` on
newline-free lines. -/
def joinNl : List (List Char) → List Char
  | [] => []
  | [l] => l
  | l :: ls => l ++ '\n' :: joinNl ls

/-- A line: no embedded line terminator. -/
def nlFree (l : List Char) : Prop := '\n' ∉ l

/-- Entirely whitespace in the sense of `strings.TrimSpace`. -/
def allSpace (l : List Char) : Prop := ∀ c ∈ l, goIsSpace c = true

/-- `lp` is `l` with whitespace appended and prepended (no line
terminator inside the padding). -/
def padRel (l lp : List Char) : Prop :=
  ∃ w₁ w₂, allSpace w₁ ∧ allSpace w₂ ∧ nlFree w₁ ∧ nlFree w₂ ∧ lp = w₁ ++ l ++ w₂

set_option maxRecDepth 4000 in
/-- Claim C8: for every judger id in the 8-bit range, the mode built by
`MakeSpecialJudgeMode` round-trips: its mode bits are `J_SPECIAL` and
its judger id is the original id. -/
theorem special_mode_roundtrip :
    ∀ id : Nat, id ≤ 255 →
      (MakeSpecialJudgeMode id).ModeBits = J_SPECIAL ∧
      (MakeSpecialJudgeMode id).JudgerId = id := by
  decide

/-- Witness for C8 at a concrete id. -/
theorem special_mode_roundtrip_witness :
    (MakeSpecialJudgeMode 9).ModeBits = J_SPECIAL ∧
    (MakeSpecialJudgeMode 9).JudgerId = 9 :=
  special_mode_roundtrip 9 (by decide)

/-- Claim C9: `LuaJudgerJudge` converts the script's numeric return
value with no range check, so some script outcome yields a status
strictly above `ST_SKIPPED`; `StatusIdent` and `StatusString` are
non-panicking (return `some`) exactly on the closed enum
`ST_WAITING..ST_SKIPPED` and panic (`none`) on every other value, so a
scripted verdict can make them panic. -/
theorem lua_status_escapes_enum :
    (∀ s : Nat, s ≤ ST_SKIPPED → (StatusIdent s).isSome ∧ (StatusString s).isSome)
    ∧ (∀ s : Nat, ST_SKIPPED < s → StatusIdent s = none ∧ StatusString s = none)
    ∧ (∃ r : LuaRunOutcome, ST_SKIPPED < LuaJudgerJudge r ∧
        StatusIdent (LuaJudgerJudge r) = none ∧
        StatusString (LuaJudgerJudge r) = none) := by
  refine ⟨by decide, ?_, ⟨.returns 13, by decide, by decide, by decide⟩⟩
  intro s hs
  have hs12 : 12 < s := hs
  obtain ⟨n, rfl⟩ : ∃ n : Nat, s = n + 13 := ⟨s - 13, by omega⟩
  exact ⟨rfl, rfl⟩

/-- Witness for C9 at concrete statuses. -/
theorem lua_status_escapes_enum_witness :
    ((StatusIdent 3).isSome ∧ (StatusString 3).isSome) ∧
    (StatusIdent 100 = none ∧ StatusString 100 = none) :=
  ⟨lua_status_escapes_enum.1 3 (by decide), lua_status_escapes_enum.2.1 100 (by decide)⟩

theorem get?_isSome_iff_lt {α : Type} (l : List α) (n : Nat) :
    (l.get? n).isSome = true ↔ n < l.length := by
  rw [List.get?_eq_getElem?]
  cases h : l[n]? with
  | none => simp_all [List.getElem?_eq_none_iff]
  | some a =>
    simp only [Option.isSome_some, true_iff]
    exact (List.getElem?_eq_some.mp h).1

theorem listGetI_isSome {α : Type} (l : List α) (i : Int) :
    (listGetI l i).isSome = true ↔ 0 ≤ i ∧ i < l.length := by
  unfold listGetI
  by_cases h : i < 0
  · simp only [if_pos h, Option.isSome_none]
    constructor
    · intro hf; exact absurd hf (by decide)
    · intro hc; omega
  · simp only [if_neg h, get?_isSome_iff_lt]
    omega

/-- Claim C10: packed dispatch reads `Cases[g-1]` and `Results[g]` with
no validation of the group entry `g`; both accesses are in bounds
exactly when `1 ≤ g ≤ len(cases)` (given the job invariant
`len(results) = len(cases) + 1`), so an entry such as `0` or
`len(cases) + 1` makes the case unit read out of range (a Go slice
panic, `none` here). -/
theorem packed_group_entry_bounds :
    ∀ (cs : List Case) (rs : List CaseResult) (g : Int),
      rs.length = cs.length + 1 →
      (packedAccessOk cs rs g = true ↔ 1 ≤ g ∧ g ≤ cs.length) := by
  intro cs rs g hlen
  simp only [packedAccessOk, packedCaseAccess, packedResultAccess,
    Bool.and_eq_true, listGetI_isSome, hlen]
  omega

/-- Witness for C10: with two cases and three result slots, entries 1
and 2 are in bounds while 0 and 3 are out of range. -/
theorem packed_group_entry_bounds_witness :
    (packedAccessOk [dfltCase, dfltCase]
        [zeroCaseResult, zeroCaseResult, zeroCaseResult] 1 = true
      ↔ (1 ≤ (1 : Int) ∧ (1 : Int) ≤ 2))
    ∧ (packedAccessOk [dfltCase, dfltCase]
        [zeroCaseResult, zeroCaseResult, zeroCaseResult] 0 = true
      ↔ (1 ≤ (0 : Int) ∧ (0 : Int) ≤ 2))
    ∧ (packedAccessOk [dfltCase, dfltCase]
        [zeroCaseResult, zeroCaseResult, zeroCaseResult] 3 = true
      ↔ (1 ≤ (3 : Int) ∧ (3 : Int) ≤ 2)) :=
  ⟨packed_group_entry_bounds _ _ 1 (by decide),
   packed_group_entry_bounds _ _ 0 (by decide),
   packed_group_entry_bounds _ _ 3 (by decide)⟩

theorem aggregateStatus_accepted_iff (rs : List CaseResult) :
    aggregateStatus rs = ST_ACCEPTED ↔ ∀ r ∈ rs, r.status = ST_ACCEPTED := by
  induction rs with
  | nil => simp [aggregateStatus]
  | cons a rs ih =>
    by_cases h : a.status = ST_ACCEPTED
    · simp [aggregateStatus, h, ih]
    · simp [aggregateStatus, h]

theorem aggregateStatus_first_failure (rs : List CaseResult) (r : CaseResult)
    (h : rs.find? (fun x => decide (x.status ≠ ST_ACCEPTED)) = some r) :
    aggregateStatus rs = r.status := by
  induction rs with
  | nil => simp [List.find?] at h
  | cons a rs ih =>
    rw [List.find?_cons] at h
    split at h
    next hd =>
      cases h
      have ha : ¬r.status = ST_ACCEPTED := by simpa using of_decide_eq_true hd
      simp [aggregateStatus, ha]
    next hd =>
      have ha : a.status = ST_ACCEPTED := by simpa using of_decide_eq_false hd
      simp [aggregateStatus, ha, ih h]

theorem aggregate_update_spec (t2 : TaskState) :
    (taskUpdate t2 fun j => { j with status := aggregateStatus j.results.tail }).job.status
      = aggregateStatus t2.job.results.tail
    ∧ (taskUpdate t2 fun j =>
        { j with status := aggregateStatus j.results.tail }).job.results
      = t2.job.results := by
  constructor <;> simp [taskUpdate]

/-- Claim C4: for every job that reaches final aggregation (compile
outcome `compilation_success`, cases dispatched), the final job status
is `accepted` iff every case slot `results[i ≥ 1]` is `accepted`, and
otherwise equals the status of the first non-accepted case slot. -/
theorem final_aggregation :
    ∀ (compileOut : List Char) (outs : Nat → RunnerOutput × SpecialOutcome)
      (t : TaskState),
      ((workerRun ST_COMPILATION_SUCCESS compileOut outs t).job.status = ST_ACCEPTED
        ↔ ∀ r ∈ (workerRun ST_COMPILATION_SUCCESS compileOut outs t).job.results.tail,
            r.status = ST_ACCEPTED)
      ∧ ∀ r : CaseResult,
          (workerRun ST_COMPILATION_SUCCESS compileOut outs t).job.results.tail.find?
              (fun x => decide (x.status ≠ ST_ACCEPTED)) = some r →
          (workerRun ST_COMPILATION_SUCCESS compileOut outs t).job.status = r.status := by
  intro co outs t
  rw [workerRun]
  rw [if_neg (by simp)]
  refine ⟨?_, ?_⟩
  · rw [(aggregate_update_spec _).1, (aggregate_update_spec _).2]
    exact aggregateStatus_accepted_iff _
  · intro r hr
    rw [(aggregate_update_spec _).2] at hr
    rw [(aggregate_update_spec _).1]
    exact aggregateStatus_first_failure _ _ hr

/-- Witness for C4 on a concrete pipeline run (no hypotheses in the
main theorem other than the implicit quantifiers; instantiated at a
one-case job whose runner output is a wrong answer under lax mode). -/
theorem final_aggregation_witness :
    ((workerRun ST_COMPILATION_SUCCESS []
        (fun _ => ({ status := ST_WRONG_ANSWER, stdout := [],
                     usages := { time := 0, memory := 0 },
                     deduction := 0, exitInfo := 0 }, .verdict 0))
        { job := NewJob { code := [], lang := [], needle := [], mode := J_LAX,
                          cases := [dfltCase], groups := none },
          snaps := [] }).job.status = ST_ACCEPTED
      ↔ ∀ r ∈ (workerRun ST_COMPILATION_SUCCESS []
        (fun _ => ({ status := ST_WRONG_ANSWER, stdout := [],
                     usages := { time := 0, memory := 0 },
                     deduction := 0, exitInfo := 0 }, .verdict 0))
        { job := NewJob { code := [], lang := [], needle := [], mode := J_LAX,
                          cases := [dfltCase], groups := none },
          snaps := [] }).job.results.tail, r.status = ST_ACCEPTED) :=
  (final_aggregation [] _ _).1

def stubRunnerOut : RunnerOutput :=
  { status := ST_WAITING, stdout := [], usages := { time := 0, memory := 0 },
    deduction := 0, exitInfo := 0 }

/-- A one-case job as scheduled, and the task state after the worker's
run pipeline when the compiler reported `compilation_error` with
diagnostic text `"boom"`. -/
def c1Final : TaskState :=
  workerRun ST_COMPILATION_ERROR ['b', 'o', 'o', 'm']
    (fun _ => (stubRunnerOut, .verdict 0))
    { job := NewJob { code := [], lang := [], needle := [], mode := J_LAX,
                      cases := [dfltCase], groups := none },
      snaps := [] }

/-- Claim C1 (code bug): on a compile outcome other than
`compilation_success` the claim expects `results[0].status` to hold the
compile outcome, but the skip loop of `worker.run` starts at index 0
and overwrites it: after the pipeline, `results[0].status` is
`ST_SKIPPED`, not `ST_COMPILATION_ERROR`.  The remaining parts of the
claim (diagnostic in `results[0].extra`, job status, slots `i ≥ 1`
skipped) do hold. -/
theorem compile_error_slot_zero_overwritten :
    c1Final.job.status = ST_COMPILATION_ERROR
    ∧ (c1Final.job.results.get? 0).map (fun r => r.status) = some ST_SKIPPED
    ∧ ST_SKIPPED ≠ ST_COMPILATION_ERROR
    ∧ (c1Final.job.results.get? 0).map (fun r => r.extra) = some ['b', 'o', 'o', 'm']
    ∧ (c1Final.job.results.get? 1).map (fun r => r.status) = some ST_SKIPPED := by
  decide

/-- The interleaving the engine lock permits: the worker's
`ContainsTask` read commits, then the full `CancelTask` (its
`removeTask` finds the id still present and `task.cancel` runs), and
only then the worker's own `removeTask` and `run`. -/
def raceSchedule : List ThreadStep :=
  [.wCheck, .cRemove, .cCancel, .wRemove, .wRun]

/-- System state after running `raceSchedule` from a freshly scheduled
zero-case job with id 7 whose compile succeeds. -/
def raceFinal : SysState :=
  sysRun ST_COMPILATION_SUCCESS [] (fun _ => (stubRunnerOut, .verdict 0))
    (schedState 7 (NewJob { code := [], lang := [], needle := [], mode := J_LAX,
                            cases := [], groups := none }))
    raceSchedule

/-- Claim C2 (code bug): the worker's check of the ledger
(`ContainsTask`) and its removal (`removeTask`) are two separate
critical sections, so `CancelTask` can interleave between them: under
`raceSchedule` the cancel path finds the id still present and marks the
task cancelled, yet the worker still executes it — cancellation and
execution are not mutually exclusive. -/
theorem cancel_execute_race :
    raceFinal.cancelRemoved = some true
    ∧ raceFinal.cancelApplied = true
    ∧ raceFinal.ran = true := by
  decide

/-- Claim C3 (code bug): under `raceSchedule` the listener first
receives a snapshot whose job status is terminal (`cancelled`,
`JobFinished` holds), and a later invocation carries a different,
modified job (status `running`): a terminal status does not freeze the
job. -/
theorem terminal_status_then_modified :
    (raceFinal.task.snaps.get? 0).map (fun j => JobFinished j) = some true
    ∧ (raceFinal.task.snaps.get? 0).map (fun j => j.status) = some ST_CANCELLED
    ∧ (raceFinal.task.snaps.get? 1).map (fun j => j.status) = some ST_RUNNING
    ∧ raceFinal.task.snaps.get? 1 ≠ raceFinal.task.snaps.get? 0 := by
  decide

/-- The five verdicts a supervised child can end in once live. -/
def liveVerdict (s : Status) : Prop :=
  s = ST_ACCEPTED ∨ s = ST_RUNTIME_ERROR ∨ s = ST_HOSTILE_CODE ∨
  s = ST_TIME_LIMIT_EXCEEDED ∨ s = ST_MEMORY_LIMIT_EXCEEDED

theorem limitCheck_inl (limits : Limits) (st : RunState) (time : Nat)
    (mem : Option (Nat × Nat)) (out : RunnerOutput)
    (h : limitCheck limits st time mem = .inl out) :
    (out.status = ST_TIME_LIMIT_EXCEEDED ∨ out.status = ST_MEMORY_LIMIT_EXCEEDED)
    ∧ out.stdout = [] ∧ out.deduction = 0 := by
  unfold limitCheck at h
  split at h
  · cases h
    exact ⟨Or.inl rfl, rfl, rfl⟩
  · split at h
    · cases h
      exact ⟨Or.inr rfl, rfl, rfl⟩
    · simp at h

theorem pollGate_inl (limits : Limits) (st : RunState) (e : RunEvent)
    (out : RunnerOutput) (h : pollGate limits st e = .inl out) :
    (out.status = ST_TIME_LIMIT_EXCEEDED ∨ out.status = ST_MEMORY_LIMIT_EXCEEDED)
    ∧ out.stdout = [] ∧ out.deduction = 0 := by
  unfold pollGate at h
  split at h
  · simp at h
  · split at h
    · simp at h
    · exact limitCheck_inl _ _ _ _ _ h

theorem runLoop_spec (limits : Limits) (sd : List Char) (rk : Bool) :
    ∀ (evs : List RunEvent) (st : RunState) (out : RunnerOutput),
      runLoop limits sd rk st evs = some out →
      (out.status = ST_SYSTEM_ERROR → rk = false ∧ out.stdout = [] ∧ out.deduction = 0)
      ∧ (rk = true → liveVerdict out.status)
      ∧ 0 ≤ out.deduction := by
  intro evs
  induction evs with
  | nil =>
    intro st out h
    simp [runLoop] at h
  | cons e rest ih =>
    intro st out h
    rw [runLoop] at h
    split at h
    next out0 hpg =>
      cases h
      obtain ⟨hs, hstdout, hded⟩ := pollGate_inl _ _ _ _ hpg
      refine ⟨fun hsys => ?_, fun _ => ?_, by rw [hded]⟩
      · rcases hs with hs | hs <;> rw [hs] at hsys <;> simp
          [ST_TIME_LIMIT_EXCEEDED, ST_MEMORY_LIMIT_EXCEEDED, ST_SYSTEM_ERROR] at hsys
      · rcases hs with hs | hs
        · exact Or.inr (Or.inr (Or.inr (Or.inl hs)))
        · exact Or.inr (Or.inr (Or.inr (Or.inr hs)))
    next st1 hpg =>
      cases e with
      | poll t m => exact ih _ _ h
      | seccomp t m retData nr =>
        dsimp only at h
        split at h
        · cases h
          refine ⟨fun hsys => ?_, fun _ => Or.inr (Or.inr (Or.inl rfl)), le_refl 0⟩
          simp [ST_HOSTILE_CODE, ST_SYSTEM_ERROR] at hsys
        · exact ih _ _ h
      | exitStop t m => exact ih _ _ h
      | otherStop t m => exact ih _ _ h
      | exited t m code =>
        dsimp only at h
        split at h
        next hrk =>
          cases h
          refine ⟨fun hsys => ?_, fun _ => Or.inl rfl, Int.natCast_nonneg _⟩
          simp [ST_ACCEPTED, ST_SYSTEM_ERROR] at hsys
        next hrk =>
          cases h
          refine ⟨fun _ => ⟨?_, rfl, rfl⟩, fun hr => absurd hr hrk, le_refl 0⟩
          cases rk with
          | false => rfl
          | true => exact absurd rfl hrk
      | signaled t m sig =>
        cases h
        refine ⟨fun hsys => ?_, fun _ => Or.inr (Or.inl rfl), le_refl 0⟩
        simp [ST_RUNTIME_ERROR, ST_SYSTEM_ERROR] at hsys

/-- Claim C5 counterexample: with both pipes and the spawn succeeding,
a child that exits normally but whose stdout drain fails makes `Run`
return `system_error` — after a successful spawn, refuting "once the
child process has been spawned successfully, Run never returns
system_error". -/
def c5Input : RunnerInput :=
  { executable := [], arguments := [], needleLib := [], stdin := [],
    limits := { time := 0, stackMemory := 0, heapMemory := 0 } }

def c5Env : RunEnv :=
  { stdinPipeOk := true, stdoutPipeOk := true, spawnOk := true,
    events := [.exited 0 none 0], stdoutData := [], readOk := false }

theorem run_system_error_after_spawn :
    c5Env.stdinPipeOk = true ∧ c5Env.stdoutPipeOk = true ∧ c5Env.spawnOk = true
    ∧ (Run c5Input c5Env).map (fun o => o.status) = some ST_SYSTEM_ERROR := by
  decide

/-- Claim C5 (amended): `Run` returns `system_error` only for host-side
failures — pipe creation, child spawn, or the final stdout drain after
a normal exit — and every such return carries empty stdout and zero
deduction; when setup succeeds and the drain does not fail, the run
ends in one of accepted, runtime_error, hostile_code,
time_limit_exceeded or memory_limit_exceeded (and the reported
deduction is never negative). -/
theorem run_system_error_only_host_failures :
    ∀ (input : RunnerInput) (env : RunEnv) (out : RunnerOutput),
      Run input env = some out →
      (out.status = ST_SYSTEM_ERROR → out.stdout = [] ∧ out.deduction = 0)
      ∧ (env.stdinPipeOk = true → env.stdoutPipeOk = true → env.spawnOk = true →
          env.readOk = true → liveVerdict out.status)
      ∧ 0 ≤ out.deduction := by
  intro input env out h
  unfold Run at h
  split at h
  next hp1 =>
    cases h
    exact ⟨fun _ => ⟨rfl, rfl⟩, fun h1 _ _ _ => absurd h1 (by simp [hp1]), le_refl 0⟩
  next hp1 =>
    split at h
    next hp2 =>
      cases h
      exact ⟨fun _ => ⟨rfl, rfl⟩, fun _ h2 _ _ => absurd h2 (by simp [hp2]), le_refl 0⟩
    next hp2 =>
      split at h
      next hp3 =>
        cases h
        exact ⟨fun _ => ⟨rfl, rfl⟩, fun _ _ h3 _ => absurd h3 (by simp [hp3]), le_refl 0⟩
      next hp3 =>
        obtain ⟨h1, h2, h3⟩ := runLoop_spec input.limits env.stdoutData env.readOk _ _ _ h
        exact ⟨fun hsys => (h1 hsys).2, fun _ _ _ hrk => h2 hrk, h3⟩

/-- A successful all-default run used to witness the amended C5. -/
def c5OkEnv : RunEnv :=
  { stdinPipeOk := true, stdoutPipeOk := true, spawnOk := true,
    events := [.exited 0 none 0], stdoutData := [], readOk := true }

def c5OkOut : RunnerOutput :=
  { status := ST_ACCEPTED, stdout := [], usages := { time := 0, memory := 0 },
    deduction := 0, exitInfo := 0 }

/-- Witness for C5 (amended) on a concrete successful run. -/
theorem run_system_error_only_host_failures_witness :
    (c5OkOut.status = ST_SYSTEM_ERROR → c5OkOut.stdout = [] ∧ c5OkOut.deduction = 0)
    ∧ (c5OkEnv.stdinPipeOk = true → c5OkEnv.stdoutPipeOk = true →
        c5OkEnv.spawnOk = true → c5OkEnv.readOk = true → liveVerdict c5OkOut.status)
    ∧ (0 : Int) ≤ c5OkOut.deduction :=
  run_system_error_only_host_failures c5Input c5OkEnv c5OkOut (by decide)

theorem listGet_listModify_self {α : Type} (l : List α) (k : Nat) (f : α → α) :
    (listModify l k f).get? k = (l.get? k).map f := by
  induction l generalizing k with
  | nil => simp [listModify]
  | cons a t ih =>
    cases k with
    | zero => simp [listModify]
    | succ n => simpa [listModify] using ih n

theorem getD_of_get? {α : Type} (l : List α) (n : Nat) (a d : α)
    (h : l.get? n = some a) : l.getD n d = a := by
  induction l generalizing n with
  | nil => simp [List.get?] at h
  | cons x t ih =>
    cases n with
    | zero =>
      simp only [List.get?] at h
      cases h
      rfl
    | succ m =>
      simp only [List.get?] at h
      simpa [List.getD] using ih m h

theorem Run_deduction_nonneg (input : RunnerInput) (env : RunEnv)
    (out : RunnerOutput) (h : Run input env = some out) : 0 ≤ out.deduction := by
  unfold Run at h
  split at h
  · cases h; exact le_refl 0
  · split at h
    · cases h; exact le_refl 0
    · split at h
      · cases h; exact le_refl 0
      · exact (runLoop_spec input.limits env.stdoutData env.readOk _ _ _ h).2.2

theorem stUpdateUsages_deduction (st : RunState) (t : Nat)
    (m : Option (Nat × Nat)) : ((stUpdateUsages st t m).1).deduction = st.deduction := by
  unfold stUpdateUsages
  cases m with
  | none => rfl
  | some p =>
    obtain ⟨a, b⟩ := p
    rfl

theorem pollGate_inr_deduction (limits : Limits) (st : RunState) (e : RunEvent)
    (st1 : RunState) (h : pollGate limits st e = .inr st1) :
    st1.deduction = st.deduction := by
  unfold pollGate at h
  split at h
  · cases h; rfl
  · split at h
    · cases h; rfl
    · unfold limitCheck at h
      split at h
      · simp at h
      · split at h
        · simp at h
        · cases h
          exact stUpdateUsages_deduction _ _ _

/-- The running deduction accumulator is a `uint32`, so the reported
deduction is always below 2^32. -/
theorem runLoop_deduction_lt (limits : Limits) (sd : List Char) (rk : Bool) :
    ∀ (evs : List RunEvent) (st : RunState) (out : RunnerOutput),
      st.deduction < 4294967296 →
      runLoop limits sd rk st evs = some out →
      out.deduction < 4294967296 := by
  intro evs
  induction evs with
  | nil =>
    intro st out _ h
    simp [runLoop] at h
  | cons e rest ih =>
    intro st out hst h
    rw [runLoop] at h
    split at h
    next out0 hpg =>
      cases h
      rw [(pollGate_inl _ _ _ _ hpg).2.2]
      decide
    next st1 hpg =>
      have hst1 : st1.deduction < 4294967296 :=
        (pollGate_inr_deduction _ _ _ _ hpg) ▸ hst
      cases e with
      | poll t m => exact ih _ _ hst1 h
      | seccomp t m retData nr =>
        dsimp only at h
        split at h
        · cases h
          exact (by decide : (0 : Int) < 4294967296)
        · refine ih _ _ ?_ h
          show ((stUpdateUsages st1 t m).1.deduction + retData) % 4294967296 < 4294967296
          exact Nat.mod_lt _ (by decide)
      | exitStop t m =>
        refine ih _ _ ?_ h
        show (stUpdateUsages st1 t m).1.deduction < 4294967296
        rw [stUpdateUsages_deduction]
        exact hst1
      | otherStop t m => exact ih _ _ hst1 h
      | exited t m code =>
        dsimp only at h
        split at h
        · cases h
          show (st1.deduction : Int) < 4294967296
          exact_mod_cast hst1
        · cases h
          exact (by decide : (0 : Int) < 4294967296)
      | signaled t m sig =>
        cases h
        exact (by decide : (0 : Int) < 4294967296)

theorem Run_deduction_lt (input : RunnerInput) (env : RunEnv)
    (out : RunnerOutput) (h : Run input env = some out) :
    out.deduction < 4294967296 := by
  unfold Run at h
  split at h
  · cases h; decide
  · split at h
    · cases h; decide
    · split at h
      · cases h; decide
      · exact runLoop_deduction_lt input.limits env.stdoutData env.readOk _ _ _
          (by decide) h

def stubAcceptedOut : RunnerOutput :=
  { status := ST_ACCEPTED, stdout := [], usages := { time := 0, memory := 0 },
    deduction := 0, exitInfo := 0 }

/-- Claim C6 counterexample: a case configured with negative points
(`Points` is a signed Go `int`).  The runner accepts, the lax judger
accepts, the recorded points are `max(-1 - 0, 0) = 0` — and `0 ≤ -1`
fails, so an accepted case result can exceed its case's points. -/
def c6Case : Case :=
  { stdin := [], stdout := [], args := [],
    limits := { time := 0, stackMemory := 0, heapMemory := 0 }, points := -1 }

def c6Final : TaskState :=
  runOne J_LAX [c6Case] stubAcceptedOut (.verdict 0) 0
    { job := NewJob { code := [], lang := [], needle := [], mode := J_LAX,
                      cases := [c6Case], groups := none },
      snaps := [] }

theorem accepted_points_exceed_case_points :
    (c6Final.job.results.get? 1).map (fun r => (r.status, r.points))
      = some (ST_ACCEPTED, 0)
    ∧ ([c6Case].get? 0).map (fun c => c.points) = some (-1)
    ∧ ¬((0 : Int) ≤ -1) := by
  decide

theorem wrap64_eq_self {x : Int} (h1 : -(2 ^ 63) ≤ x) (h2 : x < 2 ^ 63) :
    wrap64 x = x := by
  unfold wrap64
  omega

/-- Claim C6 (amended): for every case whose runner output is accepted
and whose judger verdict is accepted, the recorded points equal the Go
`int` (64-bit, wrapping) value of `max(case_points − deduction, 0)`;
consequently, when the case's configured points are a non-negative
`int64` value (`0 ≤ p < 2^63`), `0 ≤ results[i].points ≤
cases[i-1].points` — the deduction reported by `Run` lies in
`[0, 2^32)`, so the subtraction cannot wrap there. -/
theorem accepted_points_formula :
    ∀ (mode : JudgeMode) (cases : List Case) (c : Case) (input : RunnerInput)
      (env : RunEnv) (out : RunnerOutput) (sp : SpecialOutcome) (i : Nat)
      (t : TaskState),
      cases.get? i = some c →
      Run input env = some out →
      out.status = ST_ACCEPTED →
      judgeDispatch mode cases i out sp = ST_ACCEPTED →
      i + 1 < t.job.results.length →
      ∃ r : CaseResult,
        (runOne mode cases out sp i t).job.results.get? (i + 1) = some r
        ∧ r.points = max (wrap64 (c.points - out.deduction)) 0
        ∧ (0 ≤ c.points → c.points < 2 ^ 63 → 0 ≤ r.points ∧ r.points ≤ c.points) := by
  intro mode cases c input env out sp i t hc hrun hacc hjudge hlen
  have hded : 0 ≤ out.deduction := Run_deduction_nonneg _ _ _ hrun
  have hdlt : out.deduction < 4294967296 := Run_deduction_lt _ _ _ hrun
  obtain ⟨r0, hr0⟩ : ∃ r0, t.job.results.get? (i + 1) = some r0 := by
    rw [← Option.isSome_iff_exists]
    exact (get?_isSome_iff_lt _ _).mpr hlen
  have hgd : cases.getD i dfltCase = c := getD_of_get? _ _ _ _ hc
  have hra : (ST_ACCEPTED = ST_RUNTIME_ERROR) = False := by simp [ST_ACCEPTED, ST_RUNTIME_ERROR]
  have hha : (ST_ACCEPTED = ST_HOSTILE_CODE) = False := by simp [ST_ACCEPTED, ST_HOSTILE_CODE]
  simp only [runOne, hacc, hjudge, taskUpdate, setResult, ne_eq,
    not_true_eq_false, if_false, ite_true, if_pos rfl, hra, hha, hgd,
    listGet_listModify_self, hr0, Option.map_some]
  refine ⟨_, rfl, rfl, fun hcp hcp2 => ?_⟩
  have hw : wrap64 (c.points - out.deduction) = c.points - out.deduction :=
    wrap64_eq_self (by omega) (by omega)
  exact ⟨le_max_right _ _, max_le (by rw [hw]; omega) hcp⟩

def w6Case : Case :=
  { stdin := [], stdout := ['x'], args := [],
    limits := { time := 0, stackMemory := 0, heapMemory := 0 }, points := 10 }

def w6Input : RunnerInput :=
  { executable := [], arguments := [], needleLib := [], stdin := [],
    limits := { time := 0, stackMemory := 0, heapMemory := 0 } }

def w6Env : RunEnv :=
  { stdinPipeOk := true, stdoutPipeOk := true, spawnOk := true,
    events := [.exited 0 none 0], stdoutData := ['x'], readOk := true }

def w6Out : RunnerOutput :=
  { status := ST_ACCEPTED, stdout := ['x'], usages := { time := 0, memory := 0 },
    deduction := 0, exitInfo := 0 }

def w6Task : TaskState :=
  { job := NewJob { code := [], lang := [], needle := [], mode := J_LAX,
                    cases := [w6Case], groups := none },
    snaps := [] }

/-- Witness for the amended C6 at a concrete accepted case. -/
theorem accepted_points_formula_witness :
    ∃ r : CaseResult,
      (runOne J_LAX [w6Case] w6Out (.verdict 0) 0 w6Task).job.results.get? 1 = some r
      ∧ r.points = max (wrap64 (w6Case.points - w6Out.deduction)) 0
      ∧ (0 ≤ w6Case.points → w6Case.points < 2 ^ 63 →
          0 ≤ r.points ∧ r.points ≤ w6Case.points) :=
  accepted_points_formula J_LAX [w6Case] w6Case w6Input w6Env w6Out (.verdict 0) 0
    w6Task (by decide) (by decide) (by decide) (by decide) (by decide)

theorem dropWhile_append_all {α : Type} {p : α → Bool} {w x : List α}
    (h : ∀ a ∈ w, p a = true) : (w ++ x).dropWhile p = x.dropWhile p := by
  induction w with
  | nil => rfl
  | cons a t ih =>
    rw [List.cons_append, List.dropWhile_cons_of_pos (h a (by simp))]
    exact ih fun b hb => h b (by simp [hb])

theorem dropWhile_append_ne_nil {α : Type} {p : α → Bool} {l w : List α}
    (h : l.dropWhile p ≠ []) : (l ++ w).dropWhile p = l.dropWhile p ++ w := by
  induction l with
  | nil => exact absurd rfl h
  | cons a t ih =>
    by_cases hp : p a = true
    · rw [List.dropWhile_cons_of_pos hp] at h
      rw [List.cons_append, List.dropWhile_cons_of_pos hp,
        List.dropWhile_cons_of_pos hp]
      exact ih h
    · rw [List.cons_append, List.dropWhile_cons_of_neg (by simpa using hp),
        List.dropWhile_cons_of_neg (by simpa using hp), List.cons_append]

theorem allSpace_reverse {w : List Char} (h : allSpace w) : allSpace w.reverse :=
  fun c hc => h c (List.mem_reverse.mp hc)

theorem ltrim_append_space {w x : List Char} (h : allSpace w) :
    ltrim (w ++ x) = ltrim x :=
  dropWhile_append_all h

theorem rtrim_append_space {w x : List Char} (h : allSpace w) :
    rtrim (x ++ w) = rtrim x := by
  unfold rtrim
  rw [List.reverse_append, dropWhile_append_all (allSpace_reverse h)]

theorem ltrim_of_allSpace {l : List Char} (h : allSpace l) : ltrim l = [] :=
  List.dropWhile_eq_nil_iff.mpr h

theorem trimSpace_of_allSpace {l : List Char} (h : allSpace l) : trimSpace l = [] := by
  unfold trimSpace
  rw [ltrim_of_allSpace h]
  rfl

theorem allSpace_of_ltrim_eq_nil {l : List Char} (h : ltrim l = []) : allSpace l :=
  List.dropWhile_eq_nil_iff.mp h

theorem trimSpace_pad {w₁ w₂ l : List Char} (h1 : allSpace w₁) (h2 : allSpace w₂) :
    trimSpace (w₁ ++ l ++ w₂) = trimSpace l := by
  unfold trimSpace
  rw [List.append_assoc, ltrim_append_space h1]
  by_cases hl : ltrim l = []
  · have hls : allSpace (l ++ w₂) := by
      intro c hc
      rcases List.mem_append.mp hc with hc | hc
      · exact allSpace_of_ltrim_eq_nil hl c hc
      · exact h2 c hc
    rw [ltrim_of_allSpace hls, hl]
  · rw [show l ++ w₂ = l ++ w₂ from rfl]
    unfold ltrim at hl ⊢
    rw [dropWhile_append_ne_nil hl]
    exact rtrim_append_space h2

theorem splitOnNl_ne_nil (s : List Char) : splitOnNl s ≠ [] := by
  cases s with
  | nil => simp [splitOnNl]
  | cons c rest =>
    rw [splitOnNl]
    by_cases h : c = '\n'
    · simp [h]
    · rw [if_neg h]
      split <;> simp

theorem splitOnNl_no_nl {l : List Char} (h : nlFree l) : splitOnNl l = [l] := by
  induction l with
  | nil => rfl
  | cons c t ih =>
    have hc : c ≠ '\n' := fun hc => h (hc ▸ List.mem_cons_self c t)
    have ht : nlFree t := fun hm => h (List.mem_cons_of_mem c hm)
    rw [splitOnNl, if_neg hc, ih ht]

theorem splitOnNl_append {l s : List Char} (h : nlFree l) :
    splitOnNl (l ++ '\n' :: s) = l :: splitOnNl s := by
  induction l with
  | nil =>
    rw [List.nil_append, splitOnNl, if_pos rfl]
  | cons c t ih =>
    have hc : c ≠ '\n' := fun hc => h (hc ▸ List.mem_cons_self c t)
    have ht : nlFree t := fun hm => h (List.mem_cons_of_mem c hm)
    rw [List.cons_append, splitOnNl, if_neg hc, ih ht]

theorem splitLinesAndTrim_joinNl :
    ∀ (ls : List (List Char)), (∀ l ∈ ls, nlFree l) →
      splitLinesAndTrim (joinNl ls)
        = (ls.map trimSpace).filter (fun l => !l.isEmpty)
  | [], _ => by
    simp [joinNl, splitLinesAndTrim, splitOnNl, trimSpace, ltrim, rtrim]
  | [l], h => by
    rw [joinNl, splitLinesAndTrim, splitOnNl_no_nl (h l (by simp))]
  | l :: l2 :: rest, h => by
    have ih := splitLinesAndTrim_joinNl (l2 :: rest)
      (fun x hx => h x (List.mem_cons_of_mem l hx))
    rw [splitLinesAndTrim] at ih
    rw [joinNl, splitLinesAndTrim, splitOnNl_append (h l (by simp)),
      List.map_cons, List.filter_cons, ih]
    · simp [List.filter_cons]
    · simp

theorem zip_all_eq : ∀ (as bs : List (List Char)), as.length = bs.length →
    (((as.zip bs).all fun p => p.1 == p.2) = true ↔ as = bs)
  | [], [], _ => by simp
  | [], _ :: _, h => by simp at h
  | _ :: _, [], h => by simp at h
  | a :: as, b :: bs, h => by
    simp only [List.zip_cons_cons, List.all_cons, Bool.and_eq_true, beq_iff_eq,
      List.cons.injEq]
    rw [zip_all_eq as bs (by simpa using h)]

theorem LaxJudge_eq_iff (g e : List Char) :
    LaxJudge g e = true ↔ splitLinesAndTrim g = splitLinesAndTrim e := by
  simp only [LaxJudge]
  by_cases hlen : (splitLinesAndTrim g).length = (splitLinesAndTrim e).length
  · rw [if_neg (by simpa using hlen)]
    exact zip_all_eq _ _ hlen
  · rw [if_pos (by simpa using hlen)]
    constructor
    · intro h
      exact absurd h (by simp)
    · intro h
      exact absurd (congrArg List.length h) hlen

theorem LaxJudge_congr {g1 g2 : List Char}
    (h : splitLinesAndTrim g1 = splitLinesAndTrim g2) (e : List Char) :
    LaxJudge g1 e = LaxJudge g2 e ∧ LaxJudge e g1 = LaxJudge e g2 := by
  constructor <;> simp only [LaxJudge, h]

theorem padRel_nlFree {l lp : List Char} (hl : nlFree l) (hp : padRel l lp) :
    nlFree lp := by
  obtain ⟨w₁, w₂, _, _, hn1, hn2, rfl⟩ := hp
  intro hm
  rcases List.mem_append.mp hm with hm | hm
  · rcases List.mem_append.mp hm with hm | hm
    · exact hn1 hm
    · exact hl hm
  · exact hn2 hm

theorem map_trimSpace_pad {ls ls' : List (List Char)}
    (h : List.Forall₂ padRel ls ls') : ls'.map trimSpace = ls.map trimSpace := by
  induction h with
  | nil => rfl
  | cons hpd _ ih =>
    obtain ⟨w₁, w₂, h1, h2, _, _, rfl⟩ := hpd
    simp only [List.map_cons, ih, trimSpace_pad h1 h2]

theorem forall₂_pad_nlFree {ls ls' : List (List Char)}
    (h : List.Forall₂ padRel ls ls') (hnl : ∀ l ∈ ls, nlFree l) :
    ∀ l ∈ ls', nlFree l := by
  induction h with
  | nil => simp
  | cons hpd _ ih =>
    intro l' hl'
    rcases List.mem_cons.mp hl' with rfl | hm
    · exact padRel_nlFree (hnl _ (by simp)) hpd
    · exact ih (fun x hx => hnl x (by simp [hx])) _ hm

theorem splitLinesAndTrim_pad {ls ls' : List (List Char)}
    (hnl : ∀ l ∈ ls, nlFree l) (h : List.Forall₂ padRel ls ls') :
    splitLinesAndTrim (joinNl ls') = splitLinesAndTrim (joinNl ls) := by
  rw [splitLinesAndTrim_joinNl ls hnl,
    splitLinesAndTrim_joinNl ls' (forall₂_pad_nlFree h hnl),
    map_trimSpace_pad h]

theorem splitLinesAndTrim_blank {pre post : List (List Char)} {bl : List Char}
    (hnl : ∀ l ∈ pre ++ post, nlFree l) (hbn : nlFree bl) (hbs : allSpace bl) :
    splitLinesAndTrim (joinNl (pre ++ bl :: post))
      = splitLinesAndTrim (joinNl (pre ++ post)) := by
  have h1 : ∀ l ∈ pre ++ bl :: post, nlFree l := by
    intro l hl
    rcases List.mem_append.mp hl with h | h
    · exact hnl l (List.mem_append.mpr (Or.inl h))
    · rcases List.mem_cons.mp h with rfl | h
      · exact hbn
      · exact hnl l (List.mem_append.mpr (Or.inr h))
  rw [splitLinesAndTrim_joinNl _ h1, splitLinesAndTrim_joinNl _ hnl,
    List.map_append, List.map_cons, List.filter_append, List.filter_cons,
    trimSpace_of_allSpace hbs]
  simp [List.filter_append]

/-- Claim C7: `LaxJudge` decides exactly equality of the two line
sequences obtained by splitting on line terminators, trimming each line
and dropping the lines that became empty; consequently it is invariant
under padding any line with whitespace and under inserting or removing
blank lines (on either argument), while `StrictJudge` (byte equality)
is not invariant under such padding. -/
theorem lax_judge_trim_semantics :
    (∀ g e, LaxJudge g e = true ↔ splitLinesAndTrim g = splitLinesAndTrim e)
    ∧ (∀ ls ls' e, (∀ l ∈ ls, nlFree l) → List.Forall₂ padRel ls ls' →
        LaxJudge (joinNl ls') e = LaxJudge (joinNl ls) e
        ∧ LaxJudge e (joinNl ls') = LaxJudge e (joinNl ls))
    ∧ (∀ pre post bl e, (∀ l ∈ pre ++ post, nlFree l) → nlFree bl → allSpace bl →
        LaxJudge (joinNl (pre ++ bl :: post)) e = LaxJudge (joinNl (pre ++ post)) e
        ∧ LaxJudge e (joinNl (pre ++ bl :: post)) = LaxJudge e (joinNl (pre ++ post)))
    ∧ (StrictJudge ['3'] ['3'] = true ∧ padRel ['3'] ['3', ' ']
        ∧ StrictJudge ['3', ' '] ['3'] = false ∧ LaxJudge ['3', ' '] ['3'] = true) := by
  refine ⟨LaxJudge_eq_iff, ?_, ?_, by decide, ?_, by decide, by decide⟩
  · intro ls ls' e hnl hf
    exact LaxJudge_congr (splitLinesAndTrim_pad hnl hf) e
  · intro pre post bl e hnl hbn hbs
    exact LaxJudge_congr (splitLinesAndTrim_blank hnl hbn hbs) e
  · refine ⟨[], [' '], ?_, ?_, ?_, ?_, rfl⟩
    · intro c hc
      exact absurd hc (List.not_mem_nil c)
    · intro c hc
      rw [List.mem_singleton.mp hc]
      decide
    · intro hc
      exact absurd hc (List.not_mem_nil _)
    · show '\n' ∉ [' ']
      decide

/-- Witness for C7: padding the single line `"3"` with a trailing space
does not change the lax verdict against expected `"3"`. -/
theorem lax_judge_trim_semantics_witness :
    LaxJudge (joinNl [['3', ' ']]) ['3'] = LaxJudge (joinNl [['3']]) ['3']
    ∧ LaxJudge ['3'] (joinNl [['3', ' ']]) = LaxJudge ['3'] (joinNl [['3']]) :=
  lax_judge_trim_semantics.2.1 [['3']] [['3', ' ']] ['3']
    (fun l hl => by
      rw [List.mem_singleton.mp hl]
      show '\n' ∉ ['3']
      decide)
    (List.Forall₂.cons
      ⟨[], [' '],
        fun c hc => absurd hc (List.not_mem_nil c),
        fun c hc => by
          rw [List.mem_singleton.mp hc]
          decide,
        fun hc => absurd hc (List.not_mem_nil _),
        by
          show '\n' ∉ [' ']
          decide,
        rfl⟩
      List.Forall₂.nil)
